import Mathlib

/-!
Shallow embedding of the dividend repository's core components
(`Dividend_predictor.py` and `dividend_updater_backup_2025_06_08_1000.py`):
the per-company pattern miner, the date/confidence predictor, and the
merger's parsing and duplicate-detection logic.  Python `datetime.date`
values are embedded as (year, month, day) triples together with a
proleptic-Gregorian ordinal (`ordD`), so that `timedelta` arithmetic and
date comparisons become integer arithmetic; Python floats are embedded as
rationals.
-/

attribute [local semireducible] Rat.add Rat.mul Rat.inv Rat.sub

namespace Dividends

/-- A calendar date as carried by `datetime.date`. -/
structure Date where
  year : Nat
  month : Nat
  day : Nat
deriving DecidableEq, Repr

/-- Gregorian leap-year test, as implemented by `datetime`. -/
def isLeap (y : Nat) : Bool :=
  (y % 4 == 0 && y % 100 != 0) || (y % 400 == 0)

/-- Days in a month of a given year (Gregorian calendar). -/
def daysInMonth (y m : Nat) : Nat :=
  if m == 2 then (if isLeap y then 29 else 28)
  else if m == 4 || m == 6 || m == 9 || m == 11 then 30
  else 31

/-- Days in the months strictly before month `m` of year `y`. -/
def daysBeforeMonth (y m : Nat) : Nat :=
  (List.range (m - 1)).foldl (fun acc i => acc + daysInMonth y (i + 1)) 0

/-- Validity of a (year, month, day) triple as a `datetime.date`;
`datetime(y, m, d)` raises `ValueError` exactly when this is false. -/
def dateValid (y m d : Nat) : Bool :=
  1 ≤ y && y ≤ 9999 && 1 ≤ m && m ≤ 12 && 1 ≤ d && d ≤ daysInMonth y m

/-- Proleptic-Gregorian ordinal of a date (`date.toordinal`): day 1 is
0001-01-01.  Date comparison and `timedelta`-in-days arithmetic in the
source are embedded through this ordinal. -/
def ordD (dt : Date) : ℤ :=
  (365 * (dt.year - 1) + (dt.year - 1) / 4 - (dt.year - 1) / 100
    + (dt.year - 1) / 400 + daysBeforeMonth dt.year dt.month + dt.day : Nat)

/-- A row of the historical record store as the predictor reads it:
company display name, ex-dividend date, dividend amount. -/
structure DRecord where
  company : String
  exDate : Date
  amount : ℚ
deriving DecidableEq, Repr

/-- A mined pattern, as built by `analyze_company_pattern_with_freq`. -/
structure Pattern where
  month : Nat
  day : Nat
  frequency : Nat
  last_year : Nat
  avg_dividend : ℚ
  years : List Nat
deriving DecidableEq, Repr

/-- The (month, day) grouping key of a date. -/
def mdKey (d : Date) : Nat × Nat := (d.month, d.day)

/-- Sort dates ascending (`historical_dates.sort()`, a stable sort). -/
def sortDates (l : List Date) : List Date :=
  l.insertionSort fun a b => ordD a ≤ ordD b

/-- Append `v` to the list stored under key `k` in an association list,
creating the key at the end on first sight — the insertion-order
behaviour of Python's `defaultdict(list)`. -/
def assocAppend (k : Nat × Nat) (v : Nat) :
    List ((Nat × Nat) × List Nat) → List ((Nat × Nat) × List Nat)
  | [] => [(k, [v])]
  | (k', vs) :: rest =>
      if k' = k then (k', vs ++ [v]) :: rest else (k', vs) :: assocAppend k v rest

/-- `month_day_patterns`: group the (sorted) dates by (month, day), each
group collecting its years in date order. -/
def monthDayPatterns (dates : List Date) : List ((Nat × Nat) × List Nat) :=
  dates.foldl (fun acc d => assocAppend (mdKey d) d.year acc) []

/-- Mean of the dividend amounts of the records whose ex-date falls on
(month, day) `md`, over a company's rows (the pandas `.mean()` of the
filtered frame). -/
def avgDividendFor (data : List DRecord) (md : Nat × Nat) : ℚ :=
  let matching := data.filter fun r => mdKey r.exDate = md
  (matching.map (·.amount)).sum / matching.length

/-- `analyze_company_pattern_with_freq`: from one company's rows, the
month/day groups kept by the `len(years) >= 2` test, one `Pattern`
each; `none` when the company has fewer than `min_frequency` dates or
no group qualifies. -/
def analyze_company_pattern_with_freq (data : List DRecord) (min_frequency : Nat) :
    Option (List Pattern) :=
  let historical_dates := data.map (·.exDate)
  if historical_dates.length < min_frequency then none
  else
    let sorted := sortDates historical_dates
    let frequent_patterns :=
      (monthDayPatterns sorted).filterMap fun g =>
        if 2 ≤ g.2.length then
          some { month := g.1.1, day := g.1.2, frequency := g.2.length,
                 last_year := g.2.foldl max 0,
                 avg_dividend := avgDividendFor data g.1, years := g.2 }
        else none
    if frequent_patterns.isEmpty then none else some frequent_patterns

/-- Companies in order of first occurrence (`df['חברה'].unique()`). -/
def uniqueCompanies (records : List DRecord) : List String :=
  records.foldl (fun acc r => if r.company ∈ acc then acc else acc ++ [r.company]) []

/-- `analyze_dividend_patterns`: per company, skip when it has fewer than
`min_frequency` rows or any row's ex-date is on or after
`today - RECENT_ANNOUNCEMENT_WINDOW` (60 days); otherwise mine patterns,
omitting companies with none. -/
def analyze_dividend_patterns (records : List DRecord) (min_frequency : Nat)
    (today : Date) : List (String × List Pattern) :=
  (uniqueCompanies records).filterMap fun company =>
    let company_data := records.filter (·.company = company)
    if company_data.length < min_frequency then none
    else if company_data.any (fun r => ordD today - 60 ≤ ordD r.exDate) then none
    else match analyze_company_pattern_with_freq company_data min_frequency with
      | some ps => some (company, ps)
      | none => none

/-- A prediction row, as assembled by `predict_upcoming_announcements`
(the `pattern_years` column keeps the year list rather than its
comma-joined rendering). -/
structure Prediction where
  company : String
  predicted_ex_date : Date
  days_until : ℤ
  frequency : Nat
  last_occurrence : Nat
  avg_dividend : ℚ
  confidence : ℚ
  pattern_years : List Nat
deriving DecidableEq, Repr

/-- `round(x, 1)` of the source, on rationals: round `10*x` to an integer
and divide back.  On every confidence value the source produces,
`10*x` is an exact integer, so the tie-breaking mode is immaterial. -/
def round1 (q : ℚ) : ℚ := ((round (10 * q) : ℤ) : ℚ) / 10

/-- `calculate_confidence`: frequency score capped at 1, recency score
floored at 0, combined 70/30 and scaled to a percentage. -/
def calculate_confidence (p : Pattern) (predicted_year : Nat) : ℚ :=
  let frequency_score : ℚ := min ((p.frequency : ℚ) / 5) 1
  let years_since_last : ℤ := (predicted_year : ℤ) - (p.last_year : ℤ)
  let recency_score : ℚ := max 0 (1 - ((years_since_last : ℚ) - 1) * (2 / 10))
  let confidence : ℚ := (frequency_score * (7 / 10) + recency_score * (3 / 10)) * 100
  round1 confidence

/-- The two candidate years tried for each pattern: `today.year` and the next. -/
def candYears (today : Date) : List Nat := [today.year, today.year + 1]

/-- One candidate year of one pattern: construct the date if the
(month, day) pair is valid in `year` (a `ValueError` otherwise is
swallowed by the source's `except` and yields nothing), keep it when it
falls inside the inclusive window `[today, today + prediction_days]`. -/
def predOneYear (company : String) (p : Pattern) (today : Date)
    (prediction_days : Nat) (year : Nat) : List Prediction :=
  if dateValid year p.month p.day then
    let predicted_date : Date := ⟨year, p.month, p.day⟩
    if ordD today ≤ ordD predicted_date ∧
        ordD predicted_date ≤ ordD today + prediction_days then
      [{ company := company, predicted_ex_date := predicted_date,
         days_until := ordD predicted_date - ordD today,
         frequency := p.frequency, last_occurrence := p.last_year,
         avg_dividend := p.avg_dividend,
         confidence := calculate_confidence p year, pattern_years := p.years }]
    else []
  else []

/-- All predictions one pattern contributes (both candidate years). -/
def predictForPattern (company : String) (p : Pattern) (today : Date)
    (prediction_days : Nat) : List Prediction :=
  (candYears today).flatMap (predOneYear company p today prediction_days)

/-- The unsorted prediction list over all companies and patterns. -/
def predictionsRaw (company_patterns : List (String × List Pattern))
    (today : Date) (prediction_days : Nat) : List Prediction :=
  company_patterns.flatMap fun cp =>
    cp.2.flatMap fun p => predictForPattern cp.1 p today prediction_days

/-- The sort key of the source: ascending `days_until`, ties by
descending confidence. -/
def predLE (a b : Prediction) : Prop :=
  a.days_until < b.days_until ∨
    (a.days_until = b.days_until ∧ b.confidence ≤ a.confidence)

instance : DecidableRel predLE := fun a b => by
  unfold predLE; infer_instance

/-- `predict_upcoming_announcements`: generate and sort the predictions. -/
def predict_upcoming_announcements (company_patterns : List (String × List Pattern))
    (today : Date) (prediction_days : Nat) : List Prediction :=
  (predictionsRaw company_patterns today prediction_days).insertionSort predLE

/-! ### Merger (`dividend_updater_backup_2025_06_08_1000.py`)

String manipulation is modelled over `List Char` with structural
recursion, so that concrete runs reduce inside the kernel.  `\s` and
`str.strip()` are modelled with `Char.isWhitespace`, which agrees with
Python on the repository's data. -/

/-- Characters of a string. -/
def chars (s : String) : List Char := s.toList

/-- Drop leading and trailing whitespace (`str.strip()`). -/
def trimChars (l : List Char) : List Char :=
  ((l.dropWhile Char.isWhitespace).reverse.dropWhile Char.isWhitespace).reverse

/-- One left-to-right pass of `re.sub(r'\([^\)]+\)', '', ...)`: at each
`'('`, a maximal nonempty run of non-`')'` characters followed by `')'`
is removed and scanning resumes after it; otherwise the character is
kept.  The fuel argument (seeded with the length) only serves
structural recursion: each step consumes at least one character. -/
def removeParensAux : Nat → List Char → List Char
  | 0, l => l
  | _, [] => []
  | fuel + 1, c :: rest =>
    if c = '(' then
      let code := rest.takeWhile (fun x => x != ')')
      if 0 < code.length ∧ code.length < rest.length then
        removeParensAux fuel (rest.drop (code.length + 1))
      else c :: removeParensAux fuel rest
    else c :: removeParensAux fuel rest

/-- `re.sub(r'\([^\)]+\)', '', l)` on a whitespace-free string. -/
def removeParens (l : List Char) : List Char :=
  removeParensAux l.length l

/-- `normalize_company_name`: strip all whitespace, then remove
parenthesised runs, then `strip()`. -/
def normalize_company_name (name : String) : String :=
  let no_ws := (chars name).filter (fun c => !c.isWhitespace)
  String.mk (trimChars (removeParens no_ws))

/-- The pre-normalization step of `is_duplicate_entry`:
`re.match(r'^([^(]+)', company)` takes the maximal prefix of
non-`'('` characters when it is nonempty (then `strip()`s it),
otherwise leaves the name unchanged. -/
def stripAcronym (company : String) : String :=
  let pre := (chars company).takeWhile (fun c => c != '(')
  if pre.isEmpty then company else String.mk (trimChars pre)

/-- `parse_md_file`'s company extraction: when the cell contains both
parentheses and `^([^(]+)\s*\(([^)]+)\)` matches, rebuild the canonical
`"Name (CODE)"`; otherwise keep the cell as-is. -/
def extractCompany (company_full : String) : String :=
  let cs := chars company_full
  if '(' ∈ cs ∧ ')' ∈ cs then
    let pre := cs.takeWhile (fun c => c != '(')
    if pre.isEmpty then company_full
    else
      let rest := cs.drop (pre.length + 1)
      let code := rest.takeWhile (fun c => c != ')')
      if 0 < code.length ∧ code.length < rest.length then
        String.mk (trimChars pre) ++ " (" ++ String.mk (trimChars code) ++ ")"
      else company_full
  else company_full

/-- Split a character list at a separator character (`str.split('.')`). -/
def splitOnChar (sep : Char) (l : List Char) : List (List Char) :=
  l.foldr
    (fun c acc =>
      match acc with
      | [] => if c = sep then [[], []] else [[c]]
      | g :: gs => if c = sep then [] :: g :: gs else (c :: g) :: gs)
    [[]]

/-- Numeric value of a nonempty all-digit character run. -/
def digitsToNat? (l : List Char) : Option Nat :=
  if l.isEmpty || !(l.all Char.isDigit) then none
  else some (l.foldl (fun acc c => 10 * acc + (c.toNat - '0'.toNat)) 0)

/-- `datetime.strptime(s, '%d.%m.%Y')`: three dot-separated digit
fields (day and month of one or two digits, year of up to four), which
must form a valid calendar date; `none` embeds the `ValueError` path. -/
def parseDateStr (s : String) : Option Date :=
  match splitOnChar '.' (chars s) with
  | [ds, ms, ys] =>
    match digitsToNat? ds, digitsToNat? ms, digitsToNat? ys with
    | some d, some m, some y =>
      if ds.length ≤ 2 ∧ ms.length ≤ 2 ∧ ys.length ≤ 4 ∧ dateValid y m d then
        some ⟨y, m, d⟩
      else none
    | _, _, _ => none
  | _ => none

/-- Python `float(s)` restricted to plain decimal literals with an
optional sign (exponent, `inf` and `nan` spellings are outside the
data this repository handles); `none` embeds the `ValueError` path. -/
def parseFloat (s : String) : Option ℚ :=
  let t := trimChars (chars s)
  let (sign, u) : ℚ × List Char :=
    match t with
    | '-' :: r => (-1, r)
    | '+' :: r => (1, r)
    | r => (1, r)
  match splitOnChar '.' u with
  | [ip] => (digitsToNat? ip).map fun n => sign * (n : ℚ)
  | [ip, fp] =>
    if (ip.all Char.isDigit && fp.all Char.isDigit) && !(ip.isEmpty && fp.isEmpty) then
      some (sign * (((digitsToNat? ip).getD 0 : ℚ)
        + ((digitsToNat? fp).getD 0 : ℚ) / (10 ^ fp.length)))
    else none
  | _ => none

/-- A line of the markdown table after the pipe-split: the stripped
cells the parser reads (`parts[1]`, `parts[2]`, `parts[3]`, `parts[5]`,
`parts[6]`).  Lines failing the shape screen never reach this stage. -/
structure RawEntry where
  company : String
  ex_date : String
  dividend_str : String
  payment_date : String
  yield_str : String
deriving DecidableEq, Repr

/-- A parsed markdown entry (one accepted row of `parse_md_file`). -/
structure Entry where
  company : String
  ex_date_raw : String
  ex_date : Date
  dividend : ℚ
  payment_date : Date
  yield_str : String
deriving DecidableEq, Repr

/-- How a raw entry is skipped: a bare `continue` (nothing recorded
anywhere) or a `continue` after a printed warning. -/
inductive SkipKind where
  | silent
  | warned (reason : String)
deriving DecidableEq, Repr

/-- The per-entry validation chain of `parse_md_file`, in source order:
empty ex-date/dividend/payment-date → bare `continue`; unparseable
dividend → bare `continue`; non-positive dividend → warning;
unparseable dates or payment before ex-date → warning. -/
def validateEntry (r : RawEntry) : Except SkipKind Entry :=
  let company_with_acronym := extractCompany r.company
  if (chars r.dividend_str).isEmpty || (chars r.ex_date).isEmpty
      || (chars r.payment_date).isEmpty then
    .error .silent
  else
    match parseFloat r.dividend_str with
    | none => .error .silent
    | some dividend =>
      if dividend ≤ 0 then .error (.warned "invalid dividend amount")
      else
        match parseDateStr r.ex_date, parseDateStr r.payment_date with
        | some ex_date_dt, some payment_date_dt =>
          if ordD payment_date_dt < ordD ex_date_dt then
            .error (.warned "payment date is before ex-date")
          else
            .ok ⟨company_with_acronym, r.ex_date, ex_date_dt, dividend,
              payment_date_dt, r.yield_str⟩
        | _, _ => .error (.warned "invalid date format")

/-- The within-batch key of `parse_md_file`
(`f"{company_with_acronym}_{ex_date}_{dividend}"`), as the triple it
joins: parsed display name, the raw ex-date string, the parsed amount. -/
def entryKey (e : Entry) : String × String × ℚ :=
  (e.company, e.ex_date_raw, e.dividend)

/-- The batch loop of `parse_md_file` with its `seen_entries` set:
returns the accepted entries and the skipped entries that produced a
printed message (bare `continue`s leave no trace in either list). -/
def parseEntries : List RawEntry → List (String × String × ℚ) →
    List Entry × List (RawEntry × String)
  | [], _ => ([], [])
  | r :: rest, seen =>
    match validateEntry r with
    | .error .silent => parseEntries rest seen
    | .error (.warned reason) =>
      let (acc, warns) := parseEntries rest seen
      (acc, (r, reason) :: warns)
    | .ok e =>
      if entryKey e ∈ seen then
        let (acc, warns) := parseEntries rest seen
        (acc, (r, "duplicate in MD file") :: warns)
      else
        let (acc, warns) := parseEntries rest (entryKey e :: seen)
        (e :: acc, warns)

/-- `parse_md_file` on an already-line-screened batch. -/
def parse_md_file (batch : List RawEntry) : List Entry × List (RawEntry × String) :=
  parseEntries batch []

/-- A row of the existing CSV store as the duplicate check reads it
(ex-dates already canonicalised to dates by the `to_datetime` pass). -/
structure StoreRow where
  company : String
  ex_date : Date
  dividend : ℚ
deriving DecidableEq, Repr

/-- `is_duplicate_entry`: the primary check (normalized name, same
ex-date, amount within `0.01`) and, when it finds nothing, the
secondary scan over same-date rows (amount within `0.01` and the same
normalized-name comparison). -/
def is_duplicate_entry (e : Entry) (store : List StoreRow) : Bool :=
  let company := stripAcronym e.company
  let normalized_new := normalize_company_name company
  let exact_matches := store.filter fun row =>
    normalize_company_name row.company == normalized_new
      && row.ex_date == e.ex_date
      && decide (|row.dividend - e.dividend| < 1 / 100)
  if !exact_matches.isEmpty then true
  else
    let date_matches := store.filter fun row => row.ex_date == e.ex_date
    date_matches.any fun existing =>
      decide (|existing.dividend - e.dividend| < 1 / 100)
        && normalize_company_name existing.company == normalized_new

/-- The store row an accepted entry contributes. -/
def toStoreRow (e : Entry) : StoreRow :=
  ⟨e.company, e.ex_date, e.dividend⟩

/-- The against-store pass of `update_csv_file`: keep the parsed
entries that are not duplicates of a store row. -/
def merge_accepted (store : List StoreRow) (batch : List RawEntry) : List Entry :=
  (parse_md_file batch).1.filter fun e => !is_duplicate_entry e store

/-- The store after a run of `update_csv_file`: the old rows plus the
accepted entries (the final re-sort by ex-date permutes rows and is
immaterial to the row-existence checks above). -/
def merged_store (store : List StoreRow) (batch : List RawEntry) : List StoreRow :=
  store ++ (merge_accepted store batch).map toStoreRow

/-! ### Helper lemmas -/

/-- Both branches of `is_duplicate_entry` test the same condition: a
store row with the entry's ex-date, an amount within `0.01`, and the
same normalized company name (the incoming side pre-stripped of its
acronym). -/
theorem is_duplicate_entry_iff (e : Entry) (store : List StoreRow) :
    is_duplicate_entry e store = true ↔
      ∃ row ∈ store, row.ex_date = e.ex_date ∧
        |row.dividend - e.dividend| < 1 / 100 ∧
        normalize_company_name row.company =
          normalize_company_name (stripAcronym e.company) := by
  simp only [is_duplicate_entry]
  split
  · rename_i h
    simp only [Bool.not_eq_true'] at h
    rw [List.isEmpty_eq_false_iff_exists_mem] at h
    obtain ⟨row, hrow⟩ := h
    rw [List.mem_filter] at hrow
    obtain ⟨hmem, hcond⟩ := hrow
    simp only [Bool.and_eq_true, beq_iff_eq, decide_eq_true_eq] at hcond
    simp only [true_iff]
    exact ⟨row, hmem, hcond.1.2, hcond.2, hcond.1.1⟩
  · simp only [List.any_eq_true, List.mem_filter, Bool.and_eq_true, beq_iff_eq,
      decide_eq_true_eq]
    constructor
    · rintro ⟨row, ⟨hrow, hdate⟩, hamt, hname⟩
      exact ⟨row, hrow, hdate, hamt, hname⟩
    · rintro ⟨row, hrow, hdate, hamt, hname⟩
      exact ⟨row, ⟨hrow, hdate⟩, hamt, hname⟩

/-- Invariant of the `seen_entries` loop: accepted entries carry keys
outside `seen` and pairwise distinct, and every raw entry that passes
validation is represented — by an accepted entry with its key, unless
its key was already seen. -/
theorem parseEntries_inv (batch : List RawEntry) :
    ∀ seen : List (String × String × ℚ),
      ((parseEntries batch seen).1.Pairwise fun a b => entryKey a ≠ entryKey b) ∧
      (∀ e ∈ (parseEntries batch seen).1, entryKey e ∉ seen) ∧
      (∀ r ∈ batch, ∀ e, validateEntry r = .ok e →
        entryKey e ∈ seen ∨
          ∃ e' ∈ (parseEntries batch seen).1, entryKey e' = entryKey e) := by
  induction batch with
  | nil => intro seen; simp [parseEntries]
  | cons r rest ih =>
    intro seen
    match hv : validateEntry r with
    | .error .silent =>
      obtain ⟨ih1, ih2, ih3⟩ := ih seen
      refine ⟨?_, ?_, ?_⟩
      · simpa [parseEntries, hv] using ih1
      · simpa [parseEntries, hv] using ih2
      · intro r' hr' e hok
        rcases List.mem_cons.1 hr' with hr' | hr'
        · subst hr'; rw [hv] at hok; cases hok
        · simpa [parseEntries, hv] using ih3 r' hr' e hok
    | .error (.warned reason) =>
      obtain ⟨ih1, ih2, ih3⟩ := ih seen
      refine ⟨?_, ?_, ?_⟩
      · simpa [parseEntries, hv] using ih1
      · simpa [parseEntries, hv] using ih2
      · intro r' hr' e hok
        rcases List.mem_cons.1 hr' with hr' | hr'
        · subst hr'; rw [hv] at hok; cases hok
        · simpa [parseEntries, hv] using ih3 r' hr' e hok
    | .ok e0 =>
      by_cases hk : entryKey e0 ∈ seen
      · obtain ⟨ih1, ih2, ih3⟩ := ih seen
        refine ⟨?_, ?_, ?_⟩
        · simpa [parseEntries, hv, hk] using ih1
        · simpa [parseEntries, hv, hk] using ih2
        · intro r' hr' e hok
          rcases List.mem_cons.1 hr' with hr' | hr'
          · subst hr'; rw [hv] at hok
            cases hok
            exact Or.inl hk
          · simpa [parseEntries, hv, hk] using ih3 r' hr' e hok
      · obtain ⟨ih1, ih2, ih3⟩ := ih (entryKey e0 :: seen)
        have hres : (parseEntries (r :: rest) seen).1 =
            e0 :: (parseEntries rest (entryKey e0 :: seen)).1 := by
          simp [parseEntries, hv, hk]
        refine ⟨?_, ?_, ?_⟩
        · rw [hres]
          exact List.pairwise_cons.2
            ⟨fun e' he' => fun hEq =>
              (ih2 e' he') (by rw [← hEq]; exact List.mem_cons_self _ _), ih1⟩
        · rw [hres]
          intro e he
          rcases List.mem_cons.1 he with he | he
          · subst he; exact hk
          · exact fun hmem => (ih2 e he) (List.mem_cons_of_mem _ hmem)
        · intro r' hr' e hok
          rw [hres]
          rcases List.mem_cons.1 hr' with hr' | hr'
          · subst hr'; rw [hv] at hok
            cases hok
            exact Or.inr ⟨e0, List.mem_cons_self _ _, rfl⟩
          · rcases ih3 r' hr' e hok with hmem | ⟨e', he', hkey⟩
            · rcases List.mem_cons.1 hmem with hmem | hmem
              · exact Or.inr ⟨e0, List.mem_cons_self _ _, hmem.symm⟩
              · exact Or.inl hmem
            · exact Or.inr ⟨e', List.mem_cons_of_mem _ he', hkey⟩

/-- The years collected for key `k`, in list order: the grouping
contract of `month_day_patterns`. -/
def yearsOf (l : List Date) (k : Nat × Nat) : List Nat :=
  (l.filter fun d => mdKey d = k).map (·.year)

/-- How `assocAppend` transforms a lookup. -/
theorem lookup_assocAppend (k' k : Nat × Nat) (v : Nat) :
    ∀ acc : List ((Nat × Nat) × List Nat),
      (assocAppend k v acc).lookup k' =
        if k' = k then some ((acc.lookup k).getD [] ++ [v]) else acc.lookup k'
  | [] => by
    by_cases h : k' = k
    · subst h; simp [assocAppend, List.lookup]
    · have hb : (k' == k) = false := by simpa using h
      simp [assocAppend, List.lookup, hb, h]
  | (kp, vs) :: rest => by
    by_cases hpk : kp = k
    · subst hpk
      by_cases h : k' = kp
      · subst h; simp [assocAppend, List.lookup]
      · have hb : (k' == kp) = false := by simpa using h
        simp [assocAppend, List.lookup, hb, h]
    · rw [show assocAppend k v ((kp, vs) :: rest) = (kp, vs) :: assocAppend k v rest
        from by simp [assocAppend, hpk]]
      by_cases h : k' = kp
      · subst h
        have hkk : k' ≠ k := fun hh => hpk hh
        simp [List.lookup, hkk]
      · have hb : (k' == kp) = false := by simpa using h
        simp only [List.lookup, hb]
        rw [lookup_assocAppend k' k v rest]
        by_cases h2 : k' = k
        · subst h2
          have hb2 : (k' == kp) = false := hb
          simp [List.lookup, hb2]
        · simp [h2]

/-- Lookup in the grouped structure: exactly the years of the matching
dates, absent when there are none. -/
theorem lookup_monthDayPatterns (l : List Date) (k : Nat × Nat) :
    (monthDayPatterns l).lookup k =
      if yearsOf l k = [] then none else some (yearsOf l k) := by
  suffices h : ∀ acc : List ((Nat × Nat) × List Nat),
      (l.foldl (fun acc d => assocAppend (mdKey d) d.year acc) acc).lookup k =
        match acc.lookup k with
        | some zs => some (zs ++ yearsOf l k)
        | none => if yearsOf l k = [] then none else some (yearsOf l k) by
    have := h []
    simpa [monthDayPatterns, List.lookup] using this
  induction l with
  | nil => intro acc; cases h : acc.lookup k <;> simp [yearsOf, h]
  | cons d rest ih =>
    intro acc
    rw [List.foldl_cons, ih]
    rw [lookup_assocAppend]
    by_cases hk : k = mdKey d
    · subst hk
      rw [if_pos rfl]
      have hy : yearsOf (d :: rest) (mdKey d) = d.year :: yearsOf rest (mdKey d) := by
        simp [yearsOf, List.filter_cons]
      rw [hy]
      cases h : acc.lookup (mdKey d) <;> cases hrest : yearsOf rest (mdKey d) <;>
        simp [h, hrest]
    · rw [if_neg hk]
      have hy : yearsOf (d :: rest) k = yearsOf rest k := by
        simp only [yearsOf, List.filter_cons]
        rw [if_neg]
        simpa [eq_comm] using hk
      rw [hy]

/-- Keys after an `assocAppend`. -/
theorem keys_assocAppend (acc : List ((Nat × Nat) × List Nat))
    (k : Nat × Nat) (v : Nat) :
    (assocAppend k v acc).map (·.1) =
      if k ∈ acc.map (·.1) then acc.map (·.1) else acc.map (·.1) ++ [k] := by
  induction acc with
  | nil => simp [assocAppend]
  | cons p rest ih =>
    obtain ⟨kp, vs⟩ := p
    by_cases h : kp = k
    · subst h; simp [assocAppend]
    · simp only [assocAppend, if_neg h, List.map_cons, ih]
      by_cases hm : k ∈ rest.map (·.1)
      · have hin : k ∈ kp :: rest.map (·.1) := List.mem_cons_of_mem _ hm
        simp [hm, hin]
      · have hne : k ≠ kp := fun hh => h hh.symm
        have hnotin : k ∉ kp :: rest.map (·.1) := by simp [hne, hm]
        simp [hm, hnotin]

/-- The grouped keys never repeat. -/
theorem nodup_keys_monthDayPatterns (l : List Date) :
    ((monthDayPatterns l).map (·.1)).Nodup := by
  suffices h : ∀ acc : List ((Nat × Nat) × List Nat), (acc.map (·.1)).Nodup →
      ((l.foldl (fun acc d => assocAppend (mdKey d) d.year acc) acc).map (·.1)).Nodup by
    exact h [] (by simp)
  induction l with
  | nil => intro acc hacc; simpa using hacc
  | cons d rest ih =>
    intro acc hacc
    rw [List.foldl_cons]
    refine ih _ ?_
    rw [keys_assocAppend]
    by_cases hm : mdKey d ∈ acc.map (·.1)
    · simpa [hm] using hacc
    · rw [if_neg hm]
      refine List.Nodup.append hacc (List.nodup_singleton _) ?_
      intro a ha hb
      rw [List.mem_singleton] at hb
      subst hb
      exact hm ha

/-- Membership in a `Nodup`-keyed association list determines lookup. -/
theorem lookup_of_mem_of_nodup {α β : Type} [BEq α] [LawfulBEq α]
    (l : List (α × β)) (hnd : (l.map (·.1)).Nodup) {k : α} {v : β}
    (hmem : (k, v) ∈ l) : l.lookup k = some v := by
  induction l with
  | nil => cases hmem
  | cons p rest ih =>
    obtain ⟨kp, vp⟩ := p
    rcases List.mem_cons.1 hmem with h | h
    · cases h
      simp [List.lookup]
    · have hk : k ≠ kp := by
        rintro rfl
        exact (List.nodup_cons.1 hnd).1 (by
          exact List.mem_map.2 ⟨(k, v), h, rfl⟩)
      have hb : (k == kp) = false := by simpa using hk
      simp only [List.lookup, hb]
      exact ih (List.nodup_cons.1 hnd).2 h

/-- The content of any group: the years of the dates carrying its key. -/
theorem mem_monthDayPatterns (l : List Date) (k : Nat × Nat) (ys : List Nat)
    (h : (k, ys) ∈ monthDayPatterns l) : ys = yearsOf l k := by
  have h1 := lookup_of_mem_of_nodup _ (nodup_keys_monthDayPatterns l) h
  rw [lookup_monthDayPatterns] at h1
  by_cases h2 : yearsOf l k = []
  · rw [if_pos h2] at h1; cases h1
  · rw [if_neg h2] at h1
    exact (Option.some_injective _ h1).symm

/-- Sorting the dates only permutes them. -/
theorem sortDates_perm (l : List Date) : List.Perm (sortDates l) l :=
  List.perm_insertionSort _ l

/-- Once past the `min_frequency` size gate, the miner's result is the
filter-map over the month/day groups (the `none` wrapper for an empty
result disappears under `getD []`). -/
theorem analyze_company_pattern_with_freq_eq (data : List DRecord)
    (min_frequency : Nat) (h : min_frequency ≤ data.length) :
    (analyze_company_pattern_with_freq data min_frequency).getD [] =
      (monthDayPatterns (sortDates (data.map (·.exDate)))).filterMap fun g =>
        if 2 ≤ g.2.length then
          some { month := g.1.1, day := g.1.2, frequency := g.2.length,
                 last_year := g.2.foldl max 0,
                 avg_dividend := avgDividendFor data g.1, years := g.2 }
        else none := by
  simp only [analyze_company_pattern_with_freq]
  rw [if_neg (by simpa [Nat.not_lt] using h)]
  split
  · rename_i he
    rw [List.isEmpty_iff] at he
    rw [he]
    rfl
  · rfl

/-- C1 (amended): past the size gate, the miner keeps a (month, day)
group exactly when it holds at least two dates counted with
multiplicity, one `Pattern` per kept group whose `years` are the years
of the group's dates; when the ex-dates are pairwise distinct those
years are distinct, so the threshold then counts distinct years. -/
theorem C1_group_retention (data : List DRecord) (min_frequency : Nat)
    (h : min_frequency ≤ data.length) :
    (((analyze_company_pattern_with_freq data min_frequency).getD []).map
        fun p => (p.month, p.day)) =
      (((monthDayPatterns (sortDates (data.map (·.exDate)))).filter
        fun g => 2 ≤ g.2.length).map (·.1)) ∧
    (∀ p ∈ (analyze_company_pattern_with_freq data min_frequency).getD [],
      p.years = yearsOf (sortDates (data.map (·.exDate))) (p.month, p.day) ∧
        2 ≤ p.years.length) ∧
    ((data.map (·.exDate)).Nodup →
      ∀ p ∈ (analyze_company_pattern_with_freq data min_frequency).getD [],
        p.years.Nodup) := by
  rw [analyze_company_pattern_with_freq_eq data min_frequency h]
  refine ⟨?_, ?_, ?_⟩
  · induction monthDayPatterns (sortDates (data.map (·.exDate))) with
    | nil => rfl
    | cons g gs ih =>
      by_cases hg : 2 ≤ g.2.length
      · simpa [List.filterMap_cons, List.filter_cons, hg] using ih
      · simpa [List.filterMap_cons, List.filter_cons, hg] using ih
  · intro p hp
    rw [List.mem_filterMap] at hp
    obtain ⟨g, hg, hif⟩ := hp
    by_cases h2 : 2 ≤ g.2.length
    · rw [if_pos h2] at hif
      cases hif
      have hgm : ((g.1.1, g.1.2), g.2) ∈
          monthDayPatterns (sortDates (data.map (·.exDate))) := by
        simpa using hg
      exact ⟨mem_monthDayPatterns _ _ _ hgm, h2⟩
    · rw [if_neg h2] at hif; cases hif
  · intro hnd p hp
    rw [List.mem_filterMap] at hp
    obtain ⟨g, hg, hif⟩ := hp
    by_cases h2 : 2 ≤ g.2.length
    · rw [if_pos h2] at hif
      cases hif
      have hgm : ((g.1.1, g.1.2), g.2) ∈
          monthDayPatterns (sortDates (data.map (·.exDate))) := by
        simpa using hg
      have hy := mem_monthDayPatterns _ _ _ hgm
      have hsnd : (sortDates (data.map (·.exDate))).Nodup :=
        ((sortDates_perm (data.map (·.exDate))).nodup_iff).2 hnd
      show g.2.Nodup
      rw [hy]
      refine List.Nodup.map_on ?_ (List.Nodup.filter _ hsnd)
      intro x hx y hypo hxy
      rw [List.mem_filter] at hx hypo
      have hxk : mdKey x = (g.1.1, g.1.2) := by simpa using hx.2
      have hyk : mdKey y = (g.1.1, g.1.2) := by simpa using hypo.2
      have hmd : x.month = y.month ∧ x.day = y.day := by
        have := hxk.trans hyk.symm
        simpa [mdKey, Prod.ext_iff] using this
      cases x; cases y
      simp_all
    · rw [if_neg h2] at hif; cases hif

/-- C1: a duplicated ex-date (15.03.2022 twice) yields a `Pattern` for
the (3, 15) group even though the group has a single distinct year,
contradicting the ≥2-distinct-years reading. -/
theorem C1_counterexample :
    analyze_company_pattern_with_freq
        [⟨"X", ⟨2022, 3, 15⟩, 1⟩, ⟨"X", ⟨2022, 3, 15⟩, 1⟩] 2 =
      some [⟨3, 15, 2, 2022, 1, [2022, 2022]⟩] ∧
    ([2022, 2022] : List Nat).dedup.length = 1 := by
  decide

/-- C1 witness: the retention law evaluated on a concrete two-record
company. -/
theorem C1_witness :
    2 ≤ ([⟨"X", ⟨2022, 3, 15⟩, 1⟩, ⟨"X", ⟨2023, 3, 15⟩, 6/5⟩] : List DRecord).length ∧
    ((((analyze_company_pattern_with_freq
          [⟨"X", ⟨2022, 3, 15⟩, 1⟩, ⟨"X", ⟨2023, 3, 15⟩, 6/5⟩] 2).getD []).map
        fun p => (p.month, p.day)) =
      (((monthDayPatterns (sortDates
          (([⟨"X", ⟨2022, 3, 15⟩, 1⟩, ⟨"X", ⟨2023, 3, 15⟩, 6/5⟩] :
            List DRecord).map (·.exDate)))).filter
        fun g => 2 ≤ g.2.length).map (·.1))) := by
  refine ⟨by decide, ?_⟩
  exact (C1_group_retention
    [⟨"X", ⟨2022, 3, 15⟩, 1⟩, ⟨"X", ⟨2023, 3, 15⟩, 6/5⟩] 2 (by decide)).1

/-- C2: the Alpha (ALP) scenario: two historical records on 15.03 of
2022 and 2023, no recent record, minFrequency 2, today 2024-03-01 and
a 30-day horizon give exactly one prediction — 15.03.2024, 14 days
out, frequency 2, last occurrence 2023, average dividend 1.1 and
confidence 58.0. -/
theorem C2_alpha_scenario :
    predict_upcoming_announcements
      (analyze_dividend_patterns
        [⟨"Alpha (ALP)", ⟨2022, 3, 15⟩, 1⟩, ⟨"Alpha (ALP)", ⟨2023, 3, 15⟩, 6/5⟩]
        2 ⟨2024, 3, 1⟩)
      ⟨2024, 3, 1⟩ 30 =
    [{ company := "Alpha (ALP)", predicted_ex_date := ⟨2024, 3, 15⟩,
       days_until := 14, frequency := 2, last_occurrence := 2023,
       avg_dividend := 11/10, confidence := 58, pattern_years := [2022, 2023] }] := by
  decide

/-- C3 (amended): an incoming entry is flagged as already existing iff
the store holds a row with the same ex-date, an amount within 0.01 and
the same normalized company name; the secondary date-and-amount branch
also demands the normalized-name match, so it never fires across
different companies. -/
theorem C3_duplicate_needs_name (e : Entry) (store : List StoreRow) :
    is_duplicate_entry e store = true ↔
      ∃ row ∈ store, row.ex_date = e.ex_date ∧
        |row.dividend - e.dividend| < 1 / 100 ∧
        normalize_company_name row.company =
          normalize_company_name (stripAcronym e.company) :=
  is_duplicate_entry_iff e store

/-- C3: a store row of a different company with the incoming entry's
exact ex-date and amount is not treated as a duplicate. -/
theorem C3_counterexample :
    is_duplicate_entry
        ⟨"Alpha (ALP)", "15.03.2024", ⟨2024, 3, 15⟩, 1, ⟨2024, 3, 15⟩, ""⟩
        [⟨"Beta (BET)", ⟨2024, 3, 15⟩, 1⟩] = false ∧
    (⟨"Beta (BET)", ⟨2024, 3, 15⟩, 1⟩ : StoreRow).ex_date =
      (⟨"Alpha (ALP)", "15.03.2024", ⟨2024, 3, 15⟩, 1, ⟨2024, 3, 15⟩, ""⟩ :
        Entry).ex_date ∧
    |(⟨"Beta (BET)", ⟨2024, 3, 15⟩, 1⟩ : StoreRow).dividend -
      (⟨"Alpha (ALP)", "15.03.2024", ⟨2024, 3, 15⟩, 1, ⟨2024, 3, 15⟩, ""⟩ :
        Entry).dividend| < 1 / 100 := by
  refine ⟨by decide, rfl, by norm_num⟩

/-- C4 (amended): the within-batch key is the parsed display name with
its parenthetical acronym together with the raw ex-date string and the
amount — not the whitespace-and-parenthesis-stripped normalization:
accepted entries of one batch have pairwise-distinct such keys, and
each validating raw entry is represented by an accepted entry sharing
its key. -/
theorem C4_batch_key (batch : List RawEntry) :
    ((parse_md_file batch).1.Pairwise fun a b => entryKey a ≠ entryKey b) ∧
      ∀ r ∈ batch, ∀ e, validateEntry r = .ok e →
        ∃ e' ∈ (parse_md_file batch).1, entryKey e' = entryKey e := by
  obtain ⟨h1, _, h3⟩ := parseEntries_inv batch []
  exact ⟨h1, fun r hr e hok => (h3 r hr e hok).resolve_left (by simp)⟩

/-- C4: two batch entries sharing the normalized company name, ex-date
and amount but differing in acronym are both kept — the composite key
claimed by the sentence would have rejected the second. -/
theorem C4_counterexample :
    (parse_md_file
        [⟨"Alpha (ALP)", "15.03.2024", "1.0", "15.03.2024", ""⟩,
         ⟨"Alpha (XYZ)", "15.03.2024", "1.0", "15.03.2024", ""⟩]).1 =
      [⟨"Alpha (ALP)", "15.03.2024", ⟨2024, 3, 15⟩, 1, ⟨2024, 3, 15⟩, ""⟩,
       ⟨"Alpha (XYZ)", "15.03.2024", ⟨2024, 3, 15⟩, 1, ⟨2024, 3, 15⟩, ""⟩] ∧
    normalize_company_name "Alpha (ALP)" = normalize_company_name "Alpha (XYZ)" := by
  decide

/-- C4 witness: the key law evaluated on a concrete two-entry batch. -/
theorem C4_witness :
    ((parse_md_file
        [⟨"Alpha (ALP)", "15.03.2024", "1.0", "15.03.2024", ""⟩,
         ⟨"Alpha (XYZ)", "15.03.2024", "1.0", "15.03.2024", ""⟩]).1.Pairwise
      fun a b => entryKey a ≠ entryKey b) ∧
    ∃ e' ∈ (parse_md_file
        [⟨"Alpha (ALP)", "15.03.2024", "1.0", "15.03.2024", ""⟩,
         ⟨"Alpha (XYZ)", "15.03.2024", "1.0", "15.03.2024", ""⟩]).1,
      entryKey e' = entryKey
        ⟨"Alpha (ALP)", "15.03.2024", ⟨2024, 3, 15⟩, 1, ⟨2024, 3, 15⟩, ""⟩ := by
  refine ⟨(C4_batch_key _).1, ?_⟩
  exact (C4_batch_key _).2
    ⟨"Alpha (ALP)", "15.03.2024", "1.0", "15.03.2024", ""⟩ (by simp)
    ⟨"Alpha (ALP)", "15.03.2024", ⟨2024, 3, 15⟩, 1, ⟨2024, 3, 15⟩, ""⟩ rfl

/-- C5 (amended): when every entry accepted by the first run has a
company name whose incoming-side normalization (acronym prestrip, then
normalize) agrees with the store-side normalization, a second run of
the same batch against the updated store accepts nothing. -/
theorem C5_second_run_empty (store : List StoreRow) (batch : List RawEntry)
    (H : ∀ e ∈ merge_accepted store batch,
      normalize_company_name (stripAcronym e.company) =
        normalize_company_name e.company) :
    merge_accepted (merged_store store batch) batch = [] := by
  rw [merge_accepted, List.filter_eq_nil_iff]
  intro e he
  rw [Bool.not_eq_true, Bool.not_eq_false']
  rw [is_duplicate_entry_iff]
  by_cases hd : is_duplicate_entry e store = true
  · obtain ⟨row, hrow, h1, h2, h3⟩ := (is_duplicate_entry_iff e store).1 hd
    exact ⟨row, List.mem_append_left _ hrow, h1, h2, h3⟩
  · have hacc : e ∈ merge_accepted store batch := by
      rw [merge_accepted, List.mem_filter]
      exact ⟨he, by simpa using hd⟩
    refine ⟨toStoreRow e, ?_, rfl, ?_, ?_⟩
    · exact List.mem_append_right _ (List.mem_map_of_mem _ hacc)
    · simp [toStoreRow]
    · exact (H e hacc).symm ▸ rfl

/-- C5: a company cell with an unmatched opening parenthesis defeats
the duplicate check on the second run — the entry is accepted again. -/
theorem C5_counterexample :
    merge_accepted
        (merged_store [] [⟨"A(B", "15.03.2024", "1.0", "15.03.2024", ""⟩])
        [⟨"A(B", "15.03.2024", "1.0", "15.03.2024", ""⟩] ≠ [] := by
  decide

/-- C5 witness: idempotence on a concrete well-formed batch. -/
theorem C5_witness :
    merge_accepted
        (merged_store [] [⟨"Alpha (ALP)", "15.03.2024", "1.0", "15.03.2024", ""⟩])
        [⟨"Alpha (ALP)", "15.03.2024", "1.0", "15.03.2024", ""⟩] = [] :=
  C5_second_run_empty [] [⟨"Alpha (ALP)", "15.03.2024", "1.0", "15.03.2024", ""⟩]
    (by decide)

/-- C9 (amended): a raw entry with an empty ex-date, dividend or
payment-date cell is dropped by a bare `continue`: it is excluded from
the accepted entries and leaves no recorded rejection of any kind. -/
theorem C9_incomplete_silently_skipped (r : RawEntry)
    (h : r.dividend_str = "" ∨ r.ex_date = "" ∨ r.payment_date = "") :
    validateEntry r = .error .silent ∧
      ∀ rest seen, parseEntries (r :: rest) seen = parseEntries rest seen := by
  have hv : validateEntry r = .error .silent := by
    simp only [validateEntry]
    rcases h with h | h | h <;> rw [h] <;> simp [chars]
  exact ⟨hv, fun rest seen => by simp [parseEntries, hv]⟩

/-- C9: an entry lacking its payment date yields neither an accepted
entry nor any recorded rejection — it is silently dropped, not
reported with reason "incomplete fields". -/
theorem C9_counterexample :
    parse_md_file [⟨"Alpha (ALP)", "15.03.2024", "1.0", "", ""⟩] = ([], []) := by
  decide

/-- C9 witness: the silent skip evaluated on a concrete entry with an
empty payment date. -/
theorem C9_witness :
    validateEntry ⟨"Alpha (ALP)", "15.03.2024", "1.0", "", ""⟩ =
        .error .silent ∧
      parseEntries [⟨"Alpha (ALP)", "15.03.2024", "1.0", "", ""⟩] [] =
        parseEntries [] [] :=
  ⟨(C9_incomplete_silently_skipped _ (Or.inr (Or.inr rfl))).1,
   (C9_incomplete_silently_skipped _ (Or.inr (Or.inr rfl))).2 [] []⟩

/-- `round1` preserves nonnegativity. -/
theorem round1_nonneg (q : ℚ) (h : 0 ≤ q) : 0 ≤ round1 q := by
  unfold round1
  have h1 : (0 : ℤ) ≤ round (10 * q) := by
    rw [round_eq]
    refine Int.le_floor.2 ?_
    push_cast
    linarith
  exact div_nonneg (by exact_mod_cast h1) (by norm_num)

/-- `round1` stays below 100 for inputs below 100. -/
theorem round1_le_100 (q : ℚ) (h : q ≤ 100) : round1 q ≤ 100 := by
  unfold round1
  have h1 : round (10 * q) ≤ 1000 := by
    rw [round_eq]
    have h2 : ⌊10 * q + 1 / 2⌋ ≤ ⌊(1000 : ℚ) + 1 / 2⌋ :=
      Int.floor_le_floor (by linarith)
    have h3 : ⌊(1000 : ℚ) + 1 / 2⌋ = 1000 := by
      rw [show (1000 : ℚ) + 1 / 2 = 2001 / 2 by norm_num]
      decide
    rw [h3] at h2
    exact h2
  rw [div_le_iff₀ (by norm_num : (0 : ℚ) < 10)]
  calc ((round (10 * q) : ℤ) : ℚ) ≤ (1000 : ℚ) := by exact_mod_cast h1
    _ = 100 * 10 := by norm_num

/-- C6 (amended): the confidence score is never negative, and it is at
most 100 whenever the candidate year lies strictly after the last
observed year; the `max(0, …)` on the recency term is only a floor, so
a candidate year equal to `last_year` pushes the score past 100. -/
theorem C6_confidence_bounds (p : Pattern) (y : Nat) :
    0 ≤ calculate_confidence p y ∧
      (p.last_year + 1 ≤ y → calculate_confidence p y ≤ 100) := by
  have hfs0 : (0 : ℚ) ≤ min ((p.frequency : ℚ) / 5) 1 :=
    le_min (by positivity) zero_le_one
  have hfs1 : min ((p.frequency : ℚ) / 5) 1 ≤ 1 := min_le_right _ _
  constructor
  · simp only [calculate_confidence]
    apply round1_nonneg
    have hrs0 : (0 : ℚ) ≤
        max 0 (1 - ((((y : ℤ) - (p.last_year : ℤ) : ℤ) : ℚ) - 1) * (2 / 10)) :=
      le_max_left _ _
    nlinarith [hfs0, hrs0]
  · intro hy
    simp only [calculate_confidence]
    apply round1_le_100
    have hΔ : (1 : ℚ) ≤ (((y : ℤ) - (p.last_year : ℤ) : ℤ) : ℚ) := by
      have h1 : (1 : ℤ) ≤ (y : ℤ) - (p.last_year : ℤ) := by
        have := hy
        omega
      exact_mod_cast h1
    have hrs0 : (0 : ℚ) ≤
        max 0 (1 - ((((y : ℤ) - (p.last_year : ℤ) : ℤ) : ℚ) - 1) * (2 / 10)) :=
      le_max_left _ _
    have hrs1 : max 0 (1 - ((((y : ℤ) - (p.last_year : ℤ) : ℤ) : ℚ) - 1) * (2 / 10))
        ≤ 1 := by
      apply max_le (by norm_num)
      nlinarith [hΔ]
    nlinarith [hfs0, hfs1, hrs0, hrs1]

/-- C6: with frequency 5 and a candidate year equal to the last
observed year, the recency term is 1.2 and the confidence is 106.0,
outside [0, 100]. -/
theorem C6_counterexample :
    calculate_confidence ⟨3, 15, 5, 2024, 1, [2024]⟩ 2024 = 106 ∧
      ¬(calculate_confidence ⟨3, 15, 5, 2024, 1, [2024]⟩ 2024 ≤ 100) := by
  constructor
  · decide
  · decide

/-- C6 witness: the bounds evaluated at a concrete pattern and a
candidate year after the last observed year. -/
theorem C6_witness :
    0 ≤ calculate_confidence ⟨3, 15, 2, 2023, 11/10, [2022, 2023]⟩ 2024 ∧
      calculate_confidence ⟨3, 15, 2, 2023, 11/10, [2022, 2023]⟩ 2024 ≤ 100 :=
  ⟨(C6_confidence_bounds ⟨3, 15, 2, 2023, 11/10, [2022, 2023]⟩ 2024).1,
   (C6_confidence_bounds ⟨3, 15, 2, 2023, 11/10, [2022, 2023]⟩ 2024).2 (by decide)⟩

/-- Every prediction produced for one pattern-year carries the
company name it was generated for. -/
theorem mem_predOneYear_company {c : String} {p : Pattern} {today : Date}
    {n y : Nat} {x : Prediction} (hx : x ∈ predOneYear c p today n y) :
    x.company = c := by
  simp only [predOneYear] at hx
  split at hx
  · split at hx
    · rw [List.mem_singleton] at hx
      subst hx
      rfl
    · cases hx
  · cases hx

/-- Every raw prediction names one of the mined companies. -/
theorem mem_predictionsRaw_company {cps : List (String × List Pattern)}
    {today : Date} {n : Nat} {x : Prediction}
    (hx : x ∈ predictionsRaw cps today n) : ∃ cp ∈ cps, x.company = cp.1 := by
  simp only [predictionsRaw, List.mem_flatMap] at hx
  obtain ⟨cp, hcp, hx⟩ := hx
  obtain ⟨p, _, hx⟩ := hx
  obtain ⟨y, _, hx⟩ := List.mem_flatMap.1 (by simpa [predictForPattern] using hx)
  exact ⟨cp, hcp, mem_predOneYear_company hx⟩

/-- A key absent from every pair of an association list looks up to
nothing. -/
theorem lookup_eq_none_of_forall {α β : Type} [BEq α] [LawfulBEq α]
    (l : List (α × β)) (k : α) (h : ∀ p ∈ l, p.1 ≠ k) : l.lookup k = none := by
  induction l with
  | nil => rfl
  | cons p rest ih =>
    obtain ⟨kp, vp⟩ := p
    have hb : (k == kp) = false := by
      simpa using fun hh : k = kp => h (kp, vp) (List.mem_cons_self _ _) hh.symm
    simp only [List.lookup, hb]
    exact ih fun q hq => h q (List.mem_cons_of_mem _ hq)

/-- Companies retained by the miner have no record on or after the
60-day cutoff. -/
theorem mem_analyze_no_recent {records : List DRecord} {min_frequency : Nat}
    {today : Date} {pair : String × List Pattern}
    (hp : pair ∈ analyze_dividend_patterns records min_frequency today) :
    ¬∃ r ∈ records, r.company = pair.1 ∧ ordD today - 60 ≤ ordD r.exDate := by
  simp only [analyze_dividend_patterns, List.mem_filterMap] at hp
  obtain ⟨c, _, hfc⟩ := hp
  by_cases h1 : (records.filter fun r => r.company = c).length < min_frequency
  · rw [if_pos h1] at hfc
    cases hfc
  · rw [if_neg h1] at hfc
    by_cases h2 : (records.filter fun r => r.company = c).any
        fun r => ordD today - 60 ≤ ordD r.exDate
    · rw [if_pos h2] at hfc
      cases hfc
    · rw [if_neg h2] at hfc
      have hc1 : pair.1 = c := by
        cases hm : analyze_company_pattern_with_freq
            (records.filter fun r => r.company = c) min_frequency with
        | none => rw [hm] at hfc; cases hfc
        | some ps => rw [hm] at hfc; cases hfc; rfl
      rintro ⟨r, hr, hrc, hrecent⟩
      apply h2
      rw [List.any_eq_true]
      refine ⟨r, List.mem_filter.2 ⟨hr, ?_⟩, by simpa using hrecent⟩
      simp [hrc, hc1.symm]

/-- Shared core of C7 and C10: a company with any record whose ex-date
is on or after `today - 60` is dropped by the miner and never named in
the predictor's output. -/
theorem company_excluded_of_recent (records : List DRecord)
    (min_frequency : Nat) (today : Date) (company : String)
    (h : ∃ r ∈ records, r.company = company ∧ ordD today - 60 ≤ ordD r.exDate) :
    (analyze_dividend_patterns records min_frequency today).lookup company
        = none ∧
      ∀ prediction_days,
        (predict_upcoming_announcements
            (analyze_dividend_patterns records min_frequency today)
            today prediction_days).filter
          (fun pr => pr.company == company) = [] := by
  have hkey : ∀ pair ∈ analyze_dividend_patterns records min_frequency today,
      pair.1 ≠ company := by
    intro pair hpair hceq
    exact mem_analyze_no_recent hpair (hceq ▸ h)
  constructor
  · exact lookup_eq_none_of_forall _ _ hkey
  · intro prediction_days
    rw [List.filter_eq_nil_iff]
    intro x hx
    have hx' : x ∈ predictionsRaw
        (analyze_dividend_patterns records min_frequency today)
        today prediction_days :=
      ((List.perm_insertionSort predLE _).mem_iff).1 hx
    obtain ⟨cp, hcp, hxc⟩ := mem_predictionsRaw_company hx'
    simp only [beq_iff_eq, hxc]
    exact hkey cp hcp

/-- C7: a company with a record inside the 60 days before today is
skipped by the pattern miner and receives no prediction, whatever its
other patterns. -/
theorem C7_recent_company_excluded (records : List DRecord)
    (min_frequency : Nat) (today : Date) (company : String)
    (h : ∃ r ∈ records, r.company = company ∧
      ordD today - 60 ≤ ordD r.exDate ∧ ordD r.exDate ≤ ordD today) :
    (analyze_dividend_patterns records min_frequency today).lookup company
        = none ∧
      ∀ prediction_days,
        (predict_upcoming_announcements
            (analyze_dividend_patterns records min_frequency today)
            today prediction_days).filter
          (fun pr => pr.company == company) = [] := by
  obtain ⟨r, hr, hrc, hlo, _⟩ := h
  exact company_excluded_of_recent records min_frequency today company
    ⟨r, hr, hrc, hlo⟩

/-- C7 witness: a record dated 30 days before today removes the
company. -/
theorem C7_witness :
    (∃ r ∈ ([⟨"Alpha (ALP)", ⟨2024, 1, 31⟩, 1⟩,
        ⟨"Alpha (ALP)", ⟨2023, 3, 15⟩, 1⟩] : List DRecord),
      r.company = "Alpha (ALP)" ∧
        ordD ⟨2024, 3, 1⟩ - 60 ≤ ordD r.exDate ∧
        ordD r.exDate ≤ ordD ⟨2024, 3, 1⟩) ∧
    (analyze_dividend_patterns
        [⟨"Alpha (ALP)", ⟨2024, 1, 31⟩, 1⟩, ⟨"Alpha (ALP)", ⟨2023, 3, 15⟩, 1⟩]
        2 ⟨2024, 3, 1⟩).lookup "Alpha (ALP)" = none := by
  have h : ∃ r ∈ ([⟨"Alpha (ALP)", ⟨2024, 1, 31⟩, 1⟩,
      ⟨"Alpha (ALP)", ⟨2023, 3, 15⟩, 1⟩] : List DRecord),
      r.company = "Alpha (ALP)" ∧
        ordD ⟨2024, 3, 1⟩ - 60 ≤ ordD r.exDate ∧
        ordD r.exDate ≤ ordD ⟨2024, 3, 1⟩ :=
    ⟨⟨"Alpha (ALP)", ⟨2024, 1, 31⟩, 1⟩, by decide, by decide⟩
  exact ⟨h, (C7_recent_company_excluded _ 2 ⟨2024, 3, 1⟩ "Alpha (ALP)" h).1⟩

/-- C10: the recent-record filter has no upper cutoff at today: a
record dated on or after today (arbitrarily far in the future) also
removes its company from mining and prediction. -/
theorem C10_future_record_excluded (records : List DRecord)
    (min_frequency : Nat) (today : Date) (company : String)
    (h : ∃ r ∈ records, r.company = company ∧ ordD today ≤ ordD r.exDate) :
    (analyze_dividend_patterns records min_frequency today).lookup company
        = none ∧
      ∀ prediction_days,
        (predict_upcoming_announcements
            (analyze_dividend_patterns records min_frequency today)
            today prediction_days).filter
          (fun pr => pr.company == company) = [] := by
  obtain ⟨r, hr, hrc, hge⟩ := h
  exact company_excluded_of_recent records min_frequency today company
    ⟨r, hr, hrc, by omega⟩

/-- C10 witness: a record dated one year after today removes the
company. -/
theorem C10_witness :
    (∃ r ∈ ([⟨"Alpha (ALP)", ⟨2025, 3, 1⟩, 1⟩,
        ⟨"Alpha (ALP)", ⟨2023, 3, 15⟩, 1⟩] : List DRecord),
      r.company = "Alpha (ALP)" ∧ ordD ⟨2024, 3, 1⟩ ≤ ordD r.exDate) ∧
    (analyze_dividend_patterns
        [⟨"Alpha (ALP)", ⟨2025, 3, 1⟩, 1⟩, ⟨"Alpha (ALP)", ⟨2023, 3, 15⟩, 1⟩]
        2 ⟨2024, 3, 1⟩).lookup "Alpha (ALP)" = none := by
  have h : ∃ r ∈ ([⟨"Alpha (ALP)", ⟨2025, 3, 1⟩, 1⟩,
      ⟨"Alpha (ALP)", ⟨2023, 3, 15⟩, 1⟩] : List DRecord),
      r.company = "Alpha (ALP)" ∧ ordD ⟨2024, 3, 1⟩ ≤ ordD r.exDate :=
    ⟨⟨"Alpha (ALP)", ⟨2025, 3, 1⟩, 1⟩, by decide, by decide⟩
  exact ⟨h, (C10_future_record_excluded _ 2 ⟨2024, 3, 1⟩ "Alpha (ALP)" h).1⟩

/-- C8: a candidate year in which the pattern's (month, day) is not a
valid date contributes nothing — no error — and the pattern's output
is exactly what the remaining candidate year produces. -/
theorem C8_invalid_year_skipped (c : String) (p : Pattern) (today : Date)
    (prediction_days : Nat) (y : Nat) (hy : y ∈ candYears today)
    (hv : dateValid y p.month p.day = false) :
    predOneYear c p today prediction_days y = [] ∧
      predictForPattern c p today prediction_days =
        ((candYears today).filter fun z => z ≠ y).flatMap
          (predOneYear c p today prediction_days) := by
  have h1 : predOneYear c p today prediction_days y = [] := by
    simp only [predOneYear, hv]
    simp
  refine ⟨h1, ?_⟩
  simp only [candYears] at hy ⊢
  rcases List.mem_cons.1 hy with hy1 | hy1
  · subst hy1
    have hne : today.year + 1 ≠ today.year := Nat.succ_ne_self _
    simp [predictForPattern, candYears, List.filter_cons, hne, h1]
  · rw [List.mem_singleton] at hy1
    subst hy1
    have hne : today.year ≠ today.year + 1 := (Nat.succ_ne_self _).symm
    simp [predictForPattern, candYears, List.filter_cons, hne, h1]

/-- C8 witness: a February-29 pattern in the non-leap year 2025. -/
theorem C8_witness :
    (2025 ∈ candYears ⟨2025, 1, 1⟩) ∧
    dateValid 2025 2 29 = false ∧
    predOneYear "X" ⟨2, 29, 2, 2024, 1, [2020, 2024]⟩ ⟨2025, 1, 1⟩ 60 2025 = [] ∧
    predictForPattern "X" ⟨2, 29, 2, 2024, 1, [2020, 2024]⟩ ⟨2025, 1, 1⟩ 60 =
      ((candYears ⟨2025, 1, 1⟩).filter fun z => z ≠ 2025).flatMap
        (predOneYear "X" ⟨2, 29, 2, 2024, 1, [2020, 2024]⟩ ⟨2025, 1, 1⟩ 60) := by
  refine ⟨by decide, by decide, ?_, ?_⟩
  · exact (C8_invalid_year_skipped "X" ⟨2, 29, 2, 2024, 1, [2020, 2024]⟩
      ⟨2025, 1, 1⟩ 60 2025 (by decide) (by decide)).1
  · exact (C8_invalid_year_skipped "X" ⟨2, 29, 2, 2024, 1, [2020, 2024]⟩
      ⟨2025, 1, 1⟩ 60 2025 (by decide) (by decide)).2

end Dividends
